import Mathlib

/-!
Verification of the experiment script `MNIST_test/compare2.py` (repository
Gong-sun-bai/MISF) against its natural-language specification.

The script is shallowly embedded: datasets are lists of (image, label)
pairs in iteration order, Python dicts are association lists, numeric
metric values are rationals, fallible item access returns `Option`, and
the orchestration's side effects (logging, file writes, plot rendering)
are modelled as explicit state or event traces.  External library
primitives that the script merely calls (the forward pass of the
convolutional network, the loss criterion, the optimizer's arithmetic)
appear as function parameters, exactly as they are parameters of the
Python functions (`train_model(model, train_loader, criterion,
optimizer, ...)`); the library contracts the claims rely on (an
optimizer writes only to the parameters it was constructed over, the
same named logger is returned on every `getLogger` call) are modelled
explicitly and noted where they occur.
-/

namespace Compare2

/-- Images are opaque to every claim; an abstract identifier suffices. -/
abbrev Img := Nat

/-- A labeled example: (image tensor, integer label). -/
abbrev LabeledItem := Img × Nat

/-- A dataset is its sequence of items in iteration order. -/
abbrev Dataset := List LabeledItem

/-- Line 33: `even_label_map = {0: 0, 2: 1, 4: 2, 6: 3, 8: 4}`. -/
def even_label_map : List (Nat × Nat) := [(0, 0), (2, 1), (4, 2), (6, 3), (8, 4)]

/-- Line 34: `odd_label_map = {1: 0, 3: 1, 5: 2, 7: 3, 9: 4}`. -/
def odd_label_map : List (Nat × Nat) := [(1, 0), (3, 1), (5, 2), (7, 3), (9, 4)]

/-- Lines 55-66: dataset wrapper that rewrites labels through a dict. -/
structure RemapLabelsDataset where
  dataset : Dataset
  label_map : List (Nat × Nat)

/-- Line 60-61: `__len__` returns the wrapped dataset's length. -/
def RemapLabelsDataset.len (d : RemapLabelsDataset) : Nat := d.dataset.length

/-- Lines 63-66: `__getitem__` fetches the item and looks its label up in
the dict; a missing key is a `KeyError`, modelled as `none`. -/
def RemapLabelsDataset.getitem (d : RemapLabelsDataset) (idx : Nat) :
    Option LabeledItem :=
  match d.dataset[idx]? with
  | none => none
  | some (img, label) =>
    match List.lookup label d.label_map with
    | none => none
    | some nl => some (img, nl)

/-- Lines 43 and 50: `[i for i, (img, lbl) in enumerate(ds) if lbl == label]`,
the positions in iteration order whose item carries the given label. -/
def labelIndices (ds : Dataset) (lbl : Nat) : List Nat :=
  (ds.enum.filter (fun p => p.2.2 == lbl)).map (fun p => p.1)

/-- Lines 41-44 and 48-51: for each requested label, extend the index list
with the first `cap` positions carrying that label. -/
def selectPerLabel (ds : Dataset) (labels : List Nat) (cap : Nat) : List Nat :=
  labels.foldl (fun acc lbl => acc ++ (labelIndices ds lbl).take cap) []

/-- Lines 41-44: odd labels, 20 images per class. -/
def small_train_indices (full_train_dataset : Dataset) : List Nat :=
  selectPerLabel full_train_dataset [1, 3, 5, 7, 9] 20

/-- Lines 48-51: odd labels, 200 images per class. -/
def test_indices (test_dataset : Dataset) : List Nat :=
  selectPerLabel test_dataset [1, 3, 5, 7, 9] 200

/-- The label stored at position `i` of a dataset, when in range. -/
def labelOf (ds : Dataset) (i : Nat) : Option Nat := (ds[i]?).map Prod.snd

/-! ### Trainer and evaluator (lines 111-157)

The loss criterion, the network forward pass and the optimizer update are
external library primitives; `train_model` receives them as parameters in
the Python source (`train_model(model, train_loader, criterion, optimizer,
...)`), and they are parameters here as well.  Metric scalars are
rationals. -/

/-- Per-class scores for one example (one row of `model(images)`). -/
abbrev Scores := List ℚ

/-- One batch delivered by a loader: parallel image and label lists. -/
structure Batch where
  images : List Img
  labels : List Nat

/-- `torch.max(outputs, 1)`: index of the first maximal score of a row. -/
def argmaxFrom (best : ℚ) (bestIdx cur : Nat) : List ℚ → Nat
  | [] => bestIdx
  | y :: ys =>
    if best < y then argmaxFrom y cur (cur + 1) ys
    else argmaxFrom best bestIdx (cur + 1) ys

/-- Index of the first maximal score (0 on an empty row). -/
def argmax : List ℚ → Nat
  | [] => 0
  | x :: xs => argmaxFrom x 0 1 xs

/-- `(predicted == labels).sum().item()`: matching positions of two rows. -/
def countCorrect (preds labels : List Nat) : Nat :=
  (preds.zip labels).countP (fun p => p.1 == p.2)

/-- The library pieces `train_model` and `test_model` receive: the model's
forward pass (line 122, conv/pool/log-softmax owned by the library), the
loss criterion (line 123, `nn.CrossEntropyLoss`), and the optimizer update
applied by `loss.backward(); optimizer.step()` (lines 126-127). -/
structure TrainConfig (M : Type) where
  forward : M → List Img → List Scores
  criterion : List Scores → List Nat → ℚ
  optStep : M → Batch → M

/-- The running accumulator of one epoch (lines 115-117). -/
structure EpochAcc (M : Type) where
  model : M
  epoch_loss : ℚ
  correct : Nat
  total : Nat

/-- Lines 119-132: one batch of the inner loop — forward pass, loss,
optimizer step, loss/correct/total accumulation. -/
def trainBatch {M : Type} (cfg : TrainConfig M) (acc : EpochAcc M)
    (b : Batch) : EpochAcc M :=
  let outputs := cfg.forward acc.model b.images
  let loss := cfg.criterion outputs b.labels
  { model := cfg.optStep acc.model b
    epoch_loss := acc.epoch_loss + loss
    correct := acc.correct + countCorrect (outputs.map argmax) b.labels
    total := acc.total + b.labels.length }

/-- One full epoch over the loader starting from zeroed accumulators. -/
def runEpoch {M : Type} (cfg : TrainConfig M) (m : M) (loader : List Batch) :
    EpochAcc M :=
  loader.foldl (trainBatch cfg) ⟨m, 0, 0, 0⟩

/-- Lines 114-141: the epoch loop.  Per epoch it appends
`epoch_loss / len(train_loader)` and `100 * correct / total`; the model is
threaded through (mutated in place in Python).  Returns the final model and
the two metric lists, in epoch order. -/
def trainLoop {M : Type} (cfg : TrainConfig M) (loader : List Batch) :
    Nat → M → M × List ℚ × List ℚ
  | 0, m => (m, [], [])
  | e + 1, m =>
    let r := runEpoch cfg m loader
    let rest := trainLoop cfg loader e r.model
    (rest.1,
     (r.epoch_loss / (loader.length : ℚ)) :: rest.2.1,
     (100 * (r.correct : ℚ) / (r.total : ℚ)) :: rest.2.2)

/-- Lines 111-142: `train_model` run for `num_epochs` epochs. -/
def train_model {M : Type} (cfg : TrainConfig M) (m : M) (loader : List Batch)
    (num_epochs : Nat) : M × List ℚ × List ℚ :=
  trainLoop cfg loader num_epochs m

/-- The model state reached after `e` full epochs. -/
def modelAfterEpochs {M : Type} (cfg : TrainConfig M) (loader : List Batch)
    (m : M) : Nat → M
  | 0 => m
  | e + 1 => (runEpoch cfg (modelAfterEpochs cfg loader m e) loader).model

/-- The per-batch loss values produced while one epoch runs (the model
advances between batches). -/
def epochBatchLosses {M : Type} (cfg : TrainConfig M) :
    M → List Batch → List ℚ
  | _, [] => []
  | m, b :: bs =>
    cfg.criterion (cfg.forward m b.images) b.labels ::
      epochBatchLosses cfg (cfg.optStep m b) bs

/-- Lines 150-155: one evaluation batch — forward pass under `no_grad`,
argmax predictions, accumulate (correct, total). -/
def evalStep {M : Type} (forward : M → List Img → List Scores) (m : M)
    (ct : Nat × Nat) (b : Batch) : Nat × Nat :=
  (ct.1 + countCorrect ((forward m b.images).map argmax) b.labels,
   ct.2 + b.labels.length)

/-- Lines 145-157: `test_model` — inference only, accumulate correct and
total over the stream, return `100 * correct / total`. -/
def test_model {M : Type} (forward : M → List Img → List Scores) (m : M)
    (loader : List Batch) : ℚ :=
  let acc := loader.foldl (evalStep forward m) (0, 0)
  100 * (acc.1 : ℚ) / (acc.2 : ℚ)

/-- Total number of labeled items in a batched stream. -/
def streamTotal (loader : List Batch) : Nat :=
  (loader.map (fun b => b.labels.length)).sum

/-! ### The network's parameters, freezing and the optimizer contract
(lines 79-93, 168, 186-195)

Only the parameter state of `MNISTNet` matters to the claims; the conv /
pool / log-softmax arithmetic of `forward` is library code and stays an
abstract function.  A parameter tensor is its (flattened) data plus its
`requires_grad` flag. -/

/-- A parameter tensor: data plus `requires_grad`. -/
structure ParamTensor where
  data : List ℚ
  requires_grad : Bool

/-- Lines 82-84: the three parameter-holding submodules, in registration
order `conv1, conv2, fc1`. -/
structure MNISTNet where
  conv1 : ParamTensor
  conv2 : ParamTensor
  fc1 : ParamTensor

/-- A reference to one of the three parameter slots of the net (mutation
through such a reference is how Python aliasing works here). -/
inductive Slot
  | conv1
  | conv2
  | fc1
deriving DecidableEq

/-- Dereference a slot. -/
def getSlot (m : MNISTNet) : Slot → ParamTensor
  | .conv1 => m.conv1
  | .conv2 => m.conv2
  | .fc1 => m.fc1

/-- Write the data of one slot in place. -/
def setSlotData (m : MNISTNet) (s : Slot) (d : List ℚ) : MNISTNet :=
  match s with
  | .conv1 => { m with conv1 := { m.conv1 with data := d } }
  | .conv2 => { m with conv2 := { m.conv2 with data := d } }
  | .fc1 => { m with fc1 := { m.fc1 with data := d } }

/-- `model.parameters()`: all three slots in registration order. -/
def parameters (_ : MNISTNet) : List Slot := [Slot.conv1, Slot.conv2, Slot.fc1]

/-- Line 194: `[param for param in model.parameters() if param.requires_grad]`. -/
def params_to_train (m : MNISTNet) : List Slot :=
  (parameters m).filter (fun s => (getSlot m s).requires_grad)

/-- Line 168: `MNISTNet(num_classes=5)` — freshly constructed layers carry
`requires_grad=True`; the initial weight data is the library's random
initialization, abstract here. -/
def freshModel (c1 c2 f1 : List ℚ) : MNISTNet :=
  ⟨⟨c1, true⟩, ⟨c2, true⟩, ⟨f1, true⟩⟩

/-- Lines 186-189: freeze both convolution stages. -/
def freezeConvs (m : MNISTNet) : MNISTNet :=
  { m with conv1 := { m.conv1 with requires_grad := false },
           conv2 := { m.conv2 with requires_grad := false } }

/-- Line 191: `model.fc1 = nn.Linear(64 * 7 * 7, 5)` — a fresh layer, whose
parameters default to `requires_grad=True`. -/
def replaceFc1 (m : MNISTNet) (fresh : List ℚ) : MNISTNet :=
  { m with fc1 := ⟨fresh, true⟩ }

/-- Lines 186-191 in sequence: freeze the convolutions, then install the
fresh fully-connected head. -/
def transferSetup (m : MNISTNet) (fresh : List ℚ) : MNISTNet :=
  replaceFc1 (freezeConvs m) fresh

/-- The `torch.optim` contract (documented library behavior): an optimizer
constructed over a parameter list writes, at each `step()`, only those
parameters.  `upd` abstracts the update value the optimizer derives for a
slot from the gradients of the current batch's loss. -/
def optimizerStep (slots : List Slot)
    (upd : Slot → MNISTNet → Batch → List ℚ) (m : MNISTNet) (b : Batch) :
    MNISTNet :=
  slots.foldl (fun acc s => setSlotData acc s (upd s acc b)) m

/-- The fine-tuning pass viewed from the `fc1` slot alone, with the frozen
convolution tensors pinned: one epoch over the batches. -/
def finePassFc1 (upd : Slot → MNISTNet → Batch → List ℚ) (c1 c2 : ParamTensor) :
    List ℚ → List Batch → List ℚ
  | f, [] => f
  | f, b :: bs =>
    finePassFc1 upd c1 c2 (upd Slot.fc1 ⟨c1, c2, ⟨f, true⟩⟩ b) bs

/-- The fine-tuning pass viewed from the `fc1` slot alone: `E` epochs. -/
def fineEpochsFc1 (upd : Slot → MNISTNet → Batch → List ℚ)
    (c1 c2 : ParamTensor) (loader : List Batch) : Nat → List ℚ → List ℚ
  | 0, f => f
  | e + 1, f => fineEpochsFc1 upd c1 c2 loader e (finePassFc1 upd c1 c2 f loader)

/-- Exact first Adam step for one coordinate, with the script's
`lr = 0.001` (lines 171, 179, 195) and the library defaults `β₁ = 0.9`,
`β₂ = 0.999`, `eps = 1e-8`: after the first step `m̂ = g`, `v̂ = g²`, so the
write is `θ - lr * g / (√(g²) + eps) = θ - lr * g / (|g| + eps)`, which is
exact rational arithmetic. -/
def adamFirstStep (lr θ g : ℚ) : ℚ := θ - lr * g / (|g| + 1 / 100000000)

/-! ### The experiment orchestrator (lines 160-266) -/

/-- Everything one run of `run_experiment` draws from the outside world:
the fresh random initializations (lines 168 and 191), the library forward /
criterion / optimizer-update functions, the three loaders, and the epoch
count. -/
structure ExperimentEnv where
  init_conv1 : List ℚ
  init_conv2 : List ℚ
  init_fc1 : List ℚ
  fresh_fc1 : List ℚ
  fwd : MNISTNet → List Img → List Scores
  crit : List Scores → List Nat → ℚ
  upd : Slot → MNISTNet → Batch → List ℚ
  big_loader : List Batch
  small_loader : List Batch
  test_loader : List Batch
  num_epochs : Nat

/-- The train-config a run uses once its optimizer owns `slots`. -/
def envCfg (env : ExperimentEnv) (slots : List Slot) : TrainConfig MNISTNet :=
  ⟨env.fwd, env.crit, optimizerStep slots env.upd⟩

/-- Lines 170-175: the non-transfer branch — fresh model, Adam over all of
`model.parameters()`, one training pass on the scarce stream. -/
def non_transfer_run (env : ExperimentEnv) : MNISTNet × List ℚ × List ℚ :=
  let model := freshModel env.init_conv1 env.init_conv2 env.init_fc1
  train_model (envCfg env (parameters model)) model env.small_loader
    env.num_epochs

/-- Lines 186-198 as one step: freeze the convolutions, install the fresh
head, rebuild the optimizer over `params_to_train` (line 194-195), and run
the fine-tuning pass on the given stream. -/
def fineTunePhase (m0 : MNISTNet) (fresh : List ℚ)
    (fwd : MNISTNet → List Img → List Scores)
    (crit : List Scores → List Nat → ℚ)
    (upd : Slot → MNISTNet → Batch → List ℚ)
    (loader : List Batch) (E : Nat) : MNISTNet × List ℚ × List ℚ :=
  let m1 := transferSetup m0 fresh
  train_model ⟨fwd, crit, optimizerStep (params_to_train m1) upd⟩ m1 loader E

/-- Lines 177-198: the transfer branch — pretrain on the abundant stream
with all parameters, freeze the convolutions, install a fresh head, rebuild
the optimizer over `params_to_train`, fine-tune on the scarce stream.  The
pretraining call's returned metric lists are not bound (line 183). -/
def transfer_run (env : ExperimentEnv) : MNISTNet × List ℚ × List ℚ :=
  let model := freshModel env.init_conv1 env.init_conv2 env.init_fc1
  let pre := train_model (envCfg env (parameters model)) model env.big_loader
    env.num_epochs
  fineTunePhase pre.1 env.fresh_fc1 env.fwd env.crit env.upd env.small_loader
    env.num_epochs

/-- How one run ends: normally, or with the `UnboundLocalError` CPython
raises at line 205 when `losses` was never assigned — in that case the
line-201 evaluation and the line-204 append have already happened, so the
error carries the accuracy computed before the crash. -/
inductive RunOutcome
  | ok (accuracy : ℚ) (losses accuracies : List ℚ)
  | unboundLocal (name : String) (accuracy_before_crash : ℚ)
deriving DecidableEq

/-- Lines 164-205, one iteration of the run loop: branch on `model_type`,
evaluate on the held-out stream, then append `accuracy` and `losses`.  A
`model_type` outside the two handled values assigns neither `losses` nor
`accuracies`, so the run reaches line 205 and dies on the unbound local
`losses` — after `test_model` already ran on the untrained fresh model. -/
def run_once (env : ExperimentEnv) (model_type : String) : RunOutcome :=
  let phase : Option (MNISTNet × List ℚ × List ℚ) :=
    if model_type = "non_transfer" then some (non_transfer_run env)
    else if model_type = "transfer" then some (transfer_run env)
    else none
  match phase with
  | some r => .ok (test_model env.fwd r.1 env.test_loader) r.2.1 r.2.2
  | none =>
    .unboundLocal "losses"
      (test_model env.fwd (freshModel env.init_conv1 env.init_conv2 env.init_fc1)
        env.test_loader)

/-- Lines 179-183: the pretraining phase of the transfer branch in
isolation — fresh model, Adam over all parameters, the abundant stream. -/
def pretrainPhase (env : ExperimentEnv) : MNISTNet × List ℚ × List ℚ :=
  let model := freshModel env.init_conv1 env.init_conv2 env.init_fc1
  train_model (envCfg env (parameters model)) model env.big_loader
    env.num_epochs

/-- The model state entering fine-tuning: pretrained, frozen, fresh head. -/
def transferFineStart (env : ExperimentEnv) : MNISTNet :=
  transferSetup (pretrainPhase env).1 env.fresh_fc1

/-- The train-config of the fine-tuning phase (optimizer over
`params_to_train`, line 195). -/
def transferFineCfg (env : ExperimentEnv) : TrainConfig MNISTNet :=
  envCfg env (params_to_train (transferFineStart env))

/-- Lines 160-226: the run loop of `run_experiment`, accumulating
`all_accuracies` and `all_losses`; a crash in any run aborts the loop. -/
def run_experiment (envs : Nat → ExperimentEnv) (model_type : String) :
    Nat → Except String (List ℚ × List (List ℚ))
  | 0 => .ok ([], [])
  | n + 1 =>
    match run_experiment envs model_type n with
    | .error e => .error e
    | .ok done =>
      match run_once (envs n) model_type with
      | .ok a ls _ => .ok (done.1 ++ [a], done.2 ++ [ls])
      | .unboundLocal nm _ => .error nm

/-- A small concrete environment used by closed instantiations: one run,
one epoch, a one-batch scarce stream, identity optimizer update. -/
def sampleEnv : ExperimentEnv :=
  ⟨[0], [0], [0], [0], fun _ _ => [], fun _ _ => 0, fun _ m _ => m.fc1.data,
   [], [⟨[9], [0]⟩], [], 1⟩

/-! ### Top-level schedule (lines 229-266)

The script has no `__main__` guard and takes no arguments: importing /
executing it unconditionally runs the schedule below.  The observable
side-effect schedule is modelled as an event trace. -/

/-- One externally observable step of the top level. -/
inductive Event
  | trainPhase (model_type : String) (run : Nat) (epochs : Nat)
  | evalRun (model_type : String) (run : Nat)
  | perRunImage (model_type : String) (run : Nat)
  | saveArray (file : String)
  | summaryImage (title : String)
deriving DecidableEq

/-- The events one iteration of the `run_experiment` loop emits: the
branch's training phase(s) (one for non-transfer, pretraining plus
fine-tuning for transfer), the evaluation, and the per-run curve image
(line 223).  `run` is 1-based as in `run + 1` of the source. -/
def runEvents (model_type : String) (run num_epochs : Nat) : List Event :=
  (if model_type = "non_transfer" then
    [Event.trainPhase model_type run num_epochs]
   else if model_type = "transfer" then
    [Event.trainPhase model_type run num_epochs,
     Event.trainPhase model_type run num_epochs]
   else []) ++
  [Event.evalRun model_type run, Event.perRunImage model_type run]

/-- The event trace of one `run_experiment` call (lines 164-224). -/
def runExperimentEvents (model_type : String) (num_runs num_epochs : Nat) :
    List Event :=
  (List.range num_runs).flatMap (fun r => runEvents model_type (r + 1) num_epochs)

/-- Lines 229-266 in order: `run_experiment(10, 'non_transfer', ...)`, then
`run_experiment(10, 'transfer', ...)`, then the four `np.save` calls, then
the two `plot_results` calls. -/
def mainEvents : List Event :=
  runExperimentEvents "non_transfer" 10 10 ++
  runExperimentEvents "transfer" 10 10 ++
  [Event.saveArray "logs/non_transfer_accuracies.npy",
   Event.saveArray "logs/non_transfer_losses.npy",
   Event.saveArray "logs/transfer_accuracies.npy",
   Event.saveArray "logs/transfer_losses.npy"] ++
  [Event.summaryImage "Non-Transfer Experiment",
   Event.summaryImage "Transfer Experiment"]

/-- Does an event belong to the run loop (training, evaluation, per-run
image) rather than to the final persistence steps? -/
def isRunEvent : Event → Bool
  | .trainPhase _ _ _ => true
  | .evalRun _ _ => true
  | .perRunImage _ _ => true
  | .saveArray _ => false
  | .summaryImage _ => false

/-- Is the event a training phase of the given variant? -/
def isPhaseOf (ty : String) : Event → Bool
  | .trainPhase t _ _ => t == ty
  | _ => false

/-! ### The logging registry (lines 96-108, 165-166, 137-138)

`logging.getLogger(name)` returns one process-wide logger per name;
`addHandler` appends a file handler and nothing ever removes handlers; a
logged record is written through every attached handler.  The registry and
the log files are modelled as explicit state; a log line is an abstract
message. -/

/-- One logged line, abstracting the formatted text. -/
abbrev LogMsg := String

/-- The process-wide logging state: per logger name the attached handlers'
target files (in attach order), and per file its appended lines. -/
structure LogState where
  handlers : String → List String
  files : String → List LogMsg

/-- Process start: no handlers attached, all log files empty. -/
def initLogState : LogState := ⟨fun _ => [], fun _ => []⟩

/-- Line 100: the per-run log file path. -/
def log_file (experiment_type : String) (run_number : Nat) : String :=
  "logs/" ++ experiment_type ++ "_run_" ++ toString run_number ++ ".log"

/-- Lines 96-108: `setup_logger` fetches the logger named
`experiment_type` from the registry and attaches one more file handler,
aimed at this run's log file; previous handlers stay attached. -/
def setup_logger (st : LogState) (experiment_type : String)
    (run_number : Nat) : LogState :=
  { st with
    handlers := fun n =>
      if n = experiment_type then
        st.handlers experiment_type ++ [log_file experiment_type run_number]
      else st.handlers n }

/-- `logger.info(msg)`: the record is emitted through every handler
attached to the named logger, appending the line to each handler's file. -/
def logInfo (st : LogState) (name : String) (msg : LogMsg) : LogState :=
  { st with
    files := fun f =>
      if f ∈ st.handlers name then st.files f ++ [msg] else st.files f }

/-- Log a list of messages in order through the named logger. -/
def logMsgs (st : LogState) (name : String) (msgs : List LogMsg) : LogState :=
  msgs.foldl (fun s m => logInfo s name m) st

/-- Lines 164-166 plus the in-run `logger.info` calls: runs `1..n` of one
experiment type, where `msgs r` are the lines run `r+1` logs (the run
banner, the per-epoch lines of its training phase(s), the final accuracy
line). -/
def runExperimentLog (ty : String) (msgs : Nat → List LogMsg) :
    Nat → LogState → LogState
  | 0, st => st
  | n + 1, st =>
    let st1 := runExperimentLog ty msgs n st
    logMsgs (setup_logger st1 ty (n + 1)) ty (msgs n)

/-! ### Theorems -/

/-- A dict lookup succeeds exactly when the key occurs among the dict's keys. -/
theorem lookup_isSome_iff_mem_keys (m : List (Nat × Nat)) (k : Nat) :
    (List.lookup k m).isSome ↔ k ∈ m.map Prod.fst := by
  induction m with
  | nil => simp [List.lookup]
  | cons p t ih =>
    obtain ⟨a, b⟩ := p
    by_cases h : k = a
    · subst h; simp [List.lookup_cons]
    · simp [List.lookup_cons, beq_false_of_ne h, h, ih]

/-- C2: through the even-map remapper an item with label in {0,2,4,6,8} comes
back with the label of the fixed map {0→0, 2→1, 4→2, 6→3, 8→4} (for these
labels, L/2), a value in {0,1,2,3,4}; likewise through the odd-map remapper
for labels {1,3,5,7,9} with the map {1→0, 3→1, 5→2, 7→3, 9→4}. -/
theorem remap_fixed_maps (d : RemapLabelsDataset) (idx : Nat) (img : Img)
    (label : Nat) (hitem : d.dataset[idx]? = some (img, label)) :
    (d.label_map = even_label_map → label ∈ [0, 2, 4, 6, 8] →
      d.getitem idx = some (img, label / 2) ∧ label / 2 ∈ [0, 1, 2, 3, 4]) ∧
    (d.label_map = odd_label_map → label ∈ [1, 3, 5, 7, 9] →
      d.getitem idx = some (img, label / 2) ∧ label / 2 ∈ [0, 1, 2, 3, 4]) := by
  constructor <;> intro hmap hlab <;>
    simp only [RemapLabelsDataset.getitem, hitem, hmap] <;>
    fin_cases hlab <;> exact ⟨rfl, by decide⟩

/-- Witness for C2 applied at a concrete even-labelled item. -/
theorem remap_fixed_maps_witness :
    (RemapLabelsDataset.mk [(42, 4)] even_label_map).getitem 0 = some (42, 2) :=
  ((remap_fixed_maps ⟨[(42, 4)], even_label_map⟩ 0 42 4 (by decide)).1
    rfl (by decide)).1

/-- C6: item access through the remapper succeeds exactly when the original
label is a key of the label map; on a missing key the access fails (the
`KeyError`, modelled as `none`, propagates). -/
theorem remap_getitem_keyerror (d : RemapLabelsDataset) (idx : Nat)
    (img : Img) (label : Nat) (hitem : d.dataset[idx]? = some (img, label)) :
    ((∃ y, d.getitem idx = some y) ↔ label ∈ d.label_map.map Prod.fst) ∧
    (label ∉ d.label_map.map Prod.fst → d.getitem idx = none) := by
  have hs := lookup_isSome_iff_mem_keys d.label_map label
  constructor
  · constructor
    · rintro ⟨y, hy⟩
      simp only [RemapLabelsDataset.getitem, hitem] at hy
      cases hl : List.lookup label d.label_map with
      | none => rw [hl] at hy; exact absurd hy (by simp)
      | some nl => exact hs.1 (by simp [hl])
    · intro hk
      rcases Option.isSome_iff_exists.1 (hs.2 hk) with ⟨nl, hl⟩
      exact ⟨(img, nl), by simp [RemapLabelsDataset.getitem, hitem, hl]⟩
  · intro hk
    have : List.lookup label d.label_map = none := by
      cases hl : List.lookup label d.label_map with
      | none => rfl
      | some nl => exact absurd (hs.1 (by simp [hl])) hk
    simp [RemapLabelsDataset.getitem, hitem, this]

/-- Witness for C6: accessing an odd-labelled item through the even map fails. -/
theorem remap_getitem_keyerror_witness :
    (RemapLabelsDataset.mk [(7, 3)] even_label_map).getitem 0 = none :=
  (remap_getitem_keyerror ⟨[(7, 3)], even_label_map⟩ 0 7 3 (by decide)).2
    (by decide)

/-- Folding list extension from an accumulator is flatMap. -/
theorem foldl_append_flatMap {α β : Type} (f : α → List β) :
    ∀ (l : List α) (a : List β),
      l.foldl (fun acc x => acc ++ f x) a = a ++ l.flatMap f := by
  intro l
  induction l with
  | nil => simp
  | cons x t ih => intro a; simp [List.foldl_cons, ih, List.flatMap_cons]

/-- The extend-loop of lines 41-44 / 48-51 concatenates the per-label blocks
in the order the labels are listed. -/
theorem selectPerLabel_eq_flatMap (ds : Dataset) (labels : List Nat) (cap : Nat) :
    selectPerLabel ds labels cap
      = labels.flatMap (fun lbl => (labelIndices ds lbl).take cap) := by
  simpa using foldl_append_flatMap (fun lbl => (labelIndices ds lbl).take cap) labels []

/-- A position is listed by `labelIndices` exactly when it carries the label. -/
theorem mem_labelIndices {ds : Dataset} {l i : Nat} :
    i ∈ labelIndices ds l ↔ labelOf ds i = some l := by
  unfold labelIndices labelOf
  simp only [List.mem_map, List.mem_filter]
  constructor
  · rintro ⟨⟨j, x⟩, ⟨hmem, hl⟩, rfl⟩
    rw [List.mk_mem_enum_iff_getElem?] at hmem
    simp only [hmem, Option.map_some]
    exact congrArg some (by simpa using hl)
  · intro h
    cases hx : ds[i]? with
    | none => rw [hx] at h; exact absurd h (by simp)
    | some x =>
      rw [hx] at h
      refine ⟨(i, x), ⟨List.mk_mem_enum_iff_getElem?.2 hx, ?_⟩, rfl⟩
      simpa using Option.some.inj h

/-- A flatMap over distinct keys where all blocks but one are empty is that
one block. -/
theorem flatMap_eq_single {α β : Type} {g : α → List β} :
    ∀ {labels : List α} {l : α}, labels.Nodup → l ∈ labels →
      (∀ x ∈ labels, x ≠ l → g x = []) → labels.flatMap g = g l := by
  intro labels
  induction labels with
  | nil => intro l _ h; exact absurd h (by simp)
  | cons x t ih =>
    intro l hnd hmem hz
    rcases List.mem_cons.1 hmem with h | h
    · subst h
      have : t.flatMap g = [] := by
        apply List.flatMap_eq_nil_iff.2
        intro y hy
        exact hz y (List.mem_cons_of_mem _ hy)
          (fun he => (List.nodup_cons.1 hnd).1 (he ▸ hy))
      simp [List.flatMap_cons, this]
    · have hx : g x = [] := by
        refine hz x (List.mem_cons_self x t) (fun he => ?_)
        exact (List.nodup_cons.1 hnd).1 (he ▸ h)
      rw [List.flatMap_cons, hx, List.nil_append]
      exact ih (List.nodup_cons.1 hnd).2 h
        (fun y hy => hz y (List.mem_cons_of_mem _ hy))

/-- C3: with at least `K` examples of every requested label, the selector
keeps at most `K` positions per label, the labels present among the selected
positions are exactly the requested ones, and for each requested label the
kept positions are the first `K` positions carrying it in iteration order. -/
theorem selectPerLabel_spec (ds : Dataset) (labels : List Nat) (K : Nat)
    (hnd : labels.Nodup) (hK : 0 < K)
    (hab : ∀ l ∈ labels, K ≤ (labelIndices ds l).length) :
    (∀ l, ((selectPerLabel ds labels K).filter
        (fun i => labelOf ds i == some l)).length ≤ K) ∧
    (∀ l, (∃ i ∈ selectPerLabel ds labels K, labelOf ds i = some l) ↔ l ∈ labels) ∧
    (∀ l ∈ labels, (selectPerLabel ds labels K).filter
        (fun i => labelOf ds i == some l) = (labelIndices ds l).take K) := by
  have hsel := selectPerLabel_eq_flatMap ds labels K
  have hchunk_eq : ∀ l, ((labelIndices ds l).take K).filter
      (fun i => labelOf ds i == some l) = (labelIndices ds l).take K := by
    intro l
    apply List.filter_eq_self.2
    intro i hi
    have := mem_labelIndices.1 (List.take_subset _ _ hi)
    simp [this]
  have hchunk_ne : ∀ l x, x ≠ l → ((labelIndices ds x).take K).filter
      (fun i => labelOf ds i == some l) = [] := by
    intro l x hne
    apply List.filter_eq_nil_iff.2
    intro i hi
    have := mem_labelIndices.1 (List.take_subset _ _ hi)
    simp [this, hne]
  have key : ∀ l ∈ labels, (selectPerLabel ds labels K).filter
      (fun i => labelOf ds i == some l) = (labelIndices ds l).take K := by
    intro l hl
    rw [hsel, List.filter_flatMap]
    rw [flatMap_eq_single hnd hl (fun x _ hx => hchunk_ne l x hx)]
    exact hchunk_eq l
  refine ⟨?_, ?_, key⟩
  · intro l
    by_cases hl : l ∈ labels
    · rw [key l hl, List.length_take]
      exact min_le_left _ _
    · have : (selectPerLabel ds labels K).filter
          (fun i => labelOf ds i == some l) = [] := by
        rw [hsel, List.filter_flatMap]
        apply List.flatMap_eq_nil_iff.2
        intro x hx
        exact hchunk_ne l x (fun he => hl (he ▸ hx))
      rw [this]
      exact Nat.zero_le _ |>.trans (Nat.zero_le _) |>.trans hK.le
  · intro l
    constructor
    · rintro ⟨i, hi, hlab⟩
      rw [hsel, List.mem_flatMap] at hi
      rcases hi with ⟨x, hx, hix⟩
      have := mem_labelIndices.1 (List.take_subset _ _ hix)
      rw [this] at hlab
      exact (Option.some.inj hlab) ▸ hx
    · intro hl
      have hlen : 0 < ((labelIndices ds l).take K).length := by
        rw [List.length_take]
        exact lt_min hK (lt_of_lt_of_le hK (hab l hl))
      rcases List.exists_mem_of_length_pos hlen with ⟨i, hi⟩
      refine ⟨i, ?_, mem_labelIndices.1 (List.take_subset _ _ hi)⟩
      rw [hsel, List.mem_flatMap]
      exact ⟨l, hl, hi⟩

/-- Witness for C3 on a concrete three-item dataset with labels {1, 3}. -/
theorem selectPerLabel_spec_witness :
    (selectPerLabel [(10, 3), (11, 1), (12, 3)] [1, 3] 1).filter
      (fun i => labelOf [(10, 3), (11, 1), (12, 3)] i == some 3) = [0] := by
  have h := (selectPerLabel_spec [(10, 3), (11, 1), (12, 3)] [1, 3] 1
    (by decide) (by decide) (by decide)).2.2 3 (by decide)
  rw [h]; decide

/-- The first epoch commutes past the iterated rest. -/
theorem modelAfterEpochs_succ_shift {M : Type} (cfg : TrainConfig M)
    (loader : List Batch) (m : M) :
    ∀ e, modelAfterEpochs cfg loader m (e + 1)
      = modelAfterEpochs cfg loader ((runEpoch cfg m loader).model) e := by
  intro e
  induction e with
  | zero => rfl
  | succ e ih => rw [modelAfterEpochs, ih]; rfl

/-- The trainer's metric lists have exactly one entry per configured epoch,
whatever the metric values are. -/
theorem trainLoop_lengths {M : Type} (cfg : TrainConfig M)
    (loader : List Batch) :
    ∀ (E : Nat) (m : M), (trainLoop cfg loader E m).2.1.length = E ∧
      (trainLoop cfg loader E m).2.2.length = E := by
  intro E
  induction E with
  | zero => intro m; exact ⟨rfl, rfl⟩
  | succ E ih =>
    intro m
    simp only [trainLoop, List.length_cons]
    exact ⟨congrArg (· + 1) (ih _).1, congrArg (· + 1) (ih _).2⟩

/-- Entry `e` of the loss list is epoch `e`'s mean loss, computed from the
model state after the previous `e` epochs. -/
theorem trainLoop_losses_get {M : Type} (cfg : TrainConfig M)
    (loader : List Batch) :
    ∀ (E e : Nat) (m : M), e < E →
      (trainLoop cfg loader E m).2.1[e]? =
        some ((runEpoch cfg (modelAfterEpochs cfg loader m e) loader).epoch_loss
          / (loader.length : ℚ)) := by
  intro E
  induction E with
  | zero => intro e m h; exact absurd h (Nat.not_lt_zero e)
  | succ E ih =>
    intro e m h
    cases e with
    | zero => simp [trainLoop, modelAfterEpochs]
    | succ e =>
      have he : e < E := Nat.lt_of_succ_lt_succ h
      simp only [trainLoop, List.getElem?_cons_succ]
      rw [ih e _ he, modelAfterEpochs_succ_shift]

/-- The epoch-loss accumulator sums the per-batch criterion values. -/
theorem foldl_trainBatch_epoch_loss {M : Type} (cfg : TrainConfig M) :
    ∀ (l : List Batch) (acc : EpochAcc M),
      (l.foldl (trainBatch cfg) acc).epoch_loss
        = acc.epoch_loss + (epochBatchLosses cfg acc.model l).sum := by
  intro l
  induction l with
  | nil => intro acc; simp [epochBatchLosses]
  | cons b bs ih =>
    intro acc
    rw [List.foldl_cons, ih]
    simp [trainBatch, epochBatchLosses, add_assoc]

/-- One epoch's accumulated loss is the sum of its per-batch losses. -/
theorem runEpoch_epoch_loss {M : Type} (cfg : TrainConfig M) (m : M)
    (loader : List Batch) :
    (runEpoch cfg m loader).epoch_loss = (epochBatchLosses cfg m loader).sum := by
  rw [runEpoch, foldl_trainBatch_epoch_loss]; simp

/-- With a nonnegative criterion every entry of the loss list is
nonnegative. -/
theorem trainLoop_losses_nonneg {M : Type} (cfg : TrainConfig M)
    (loader : List Batch) (hcrit : ∀ os ls, 0 ≤ cfg.criterion os ls) :
    ∀ (E : Nat) (m : M) (x : ℚ), x ∈ (trainLoop cfg loader E m).2.1 → 0 ≤ x := by
  have hsum : ∀ (l : List Batch) (m : M), 0 ≤ (epochBatchLosses cfg m l).sum := by
    intro l
    induction l with
    | nil => intro m; simp [epochBatchLosses]
    | cons b bs ih =>
      intro m
      rw [epochBatchLosses, List.sum_cons]
      exact add_nonneg (hcrit _ _) (ih _)
  intro E
  induction E with
  | zero => intro m x hx; exact absurd hx (by simp [trainLoop])
  | succ E ih =>
    intro m x hx
    rcases List.mem_cons.1 hx with h | h
    · subst h
      rw [runEpoch_epoch_loss]
      exact div_nonneg (hsum _ _) (Nat.cast_nonneg _)
    · exact ih _ x h

/-- C4: for every epoch count `E` and every stream, `train_model` returns
exactly `E` (mean loss, accuracy) pairs in epoch order, each loss entry is
the corresponding epoch's mean and is nonnegative (the criterion,
`nn.CrossEntropyLoss`, is a nonnegative function), and the epoch count
never depends on the metric values — there is no early stopping. -/
theorem train_model_spec {M : Type} (cfg : TrainConfig M) (m : M)
    (loader : List Batch) (E : Nat)
    (hcrit : ∀ os ls, 0 ≤ cfg.criterion os ls) :
    (train_model cfg m loader E).2.1.length = E ∧
    (train_model cfg m loader E).2.2.length = E ∧
    (∀ e, e < E → (train_model cfg m loader E).2.1[e]? =
      some ((runEpoch cfg (modelAfterEpochs cfg loader m e) loader).epoch_loss
        / (loader.length : ℚ))) ∧
    (∀ x ∈ (train_model cfg m loader E).2.1, 0 ≤ x) :=
  ⟨(trainLoop_lengths cfg loader E m).1,
   (trainLoop_lengths cfg loader E m).2,
   fun e he => trainLoop_losses_get cfg loader E e m he,
   fun x hx => trainLoop_losses_nonneg cfg loader hcrit E m x hx⟩

/-- Witness for C4 on a one-batch stream, three epochs, constant loss 1. -/
theorem train_model_spec_witness :
    (train_model (M := Unit) ⟨fun _ _ => [], fun _ _ => 1, fun m _ => m⟩
      () [⟨[5], [0]⟩] 3).2.1.length = 3 ∧
    (train_model (M := Unit) ⟨fun _ _ => [], fun _ _ => 1, fun m _ => m⟩
      () [⟨[5], [0]⟩] 3).2.1 = [1, 1, 1] :=
  ⟨(train_model_spec ⟨fun _ _ => [], fun _ _ => 1, fun m _ => m⟩ () [⟨[5], [0]⟩]
      3 (fun _ _ => by norm_num)).1,
   by simp [train_model, trainLoop, runEpoch, trainBatch]⟩

/-- A batch contributes at most its own size to the correct count. -/
theorem countCorrect_le (preds labels : List Nat) :
    countCorrect preds labels ≤ labels.length := by
  refine le_trans (List.countP_le_length _) ?_
  rw [List.length_zip]
  exact min_le_right _ _

/-- The evaluation fold keeps `correct ≤ total` and accumulates the stream
size into `total`. -/
theorem foldl_evalStep_invariant {M : Type}
    (forward : M → List Img → List Scores) (m : M) :
    ∀ (l : List Batch) (ct : Nat × Nat), ct.1 ≤ ct.2 →
      (l.foldl (evalStep forward m) ct).1 ≤ (l.foldl (evalStep forward m) ct).2 ∧
      (l.foldl (evalStep forward m) ct).2 = ct.2 + streamTotal l := by
  intro l
  induction l with
  | nil => intro ct h; exact ⟨h, by simp [streamTotal]⟩
  | cons b bs ih =>
    intro ct h
    rw [List.foldl_cons]
    have hstep : (evalStep forward m ct b).1 ≤ (evalStep forward m ct b).2 :=
      Nat.add_le_add h (countCorrect_le _ _)
    refine ⟨(ih _ hstep).1, ?_⟩
    rw [(ih _ hstep).2]
    simp [evalStep, streamTotal]
    omega

/-- C5: on a nonempty stream the evaluator returns an accuracy within
[0, 100], and it is deterministic — two models whose (frozen) parameters
induce the same forward outputs on every image batch evaluate to the same
accuracy on the same stream. -/
theorem test_model_spec {M : Type} (forward : M → List Img → List Scores)
    (m m2 : M) (loader : List Batch) (h : 0 < streamTotal loader) :
    0 ≤ test_model forward m loader ∧ test_model forward m loader ≤ 100 ∧
    ((∀ imgs, forward m imgs = forward m2 imgs) →
      test_model forward m loader = test_model forward m2 loader) := by
  obtain ⟨hle, htot⟩ := foldl_evalStep_invariant forward m loader (0, 0)
    (le_refl 0)
  set c := (loader.foldl (evalStep forward m) (0, 0)).1 with hc
  set t := (loader.foldl (evalStep forward m) (0, 0)).2 with ht
  have htn : 0 < t := by simp only [htot]; omega
  have htpos : (0 : ℚ) < (t : ℚ) := by exact_mod_cast htn
  refine ⟨?_, ?_, ?_⟩
  · exact div_nonneg (mul_nonneg (by norm_num) (Nat.cast_nonneg _))
      (Nat.cast_nonneg _)
  · rw [test_model, div_le_iff₀ htpos]
    have : (c : ℚ) ≤ (t : ℚ) := by exact_mod_cast hle
    nlinarith
  · intro hfwd
    have heq : evalStep forward m = evalStep forward m2 := by
      funext ct b
      simp [evalStep, hfwd]
    rw [test_model, test_model, heq]

/-- Witness for C5 on a two-item stream where both predictions match. -/
theorem test_model_spec_witness :
    0 ≤ test_model (M := Unit) (fun _ _ => [[2, 1], [1, 3]]) () [⟨[1, 2], [0, 1]⟩] ∧
    test_model (M := Unit) (fun _ _ => [[2, 1], [1, 3]]) () [⟨[1, 2], [0, 1]⟩] ≤ 100 :=
  ⟨(test_model_spec (fun _ _ => [[2, 1], [1, 3]]) () () [⟨[1, 2], [0, 1]⟩]
      (by decide)).1,
   (test_model_spec (fun _ _ => [[2, 1], [1, 3]]) () () [⟨[1, 2], [0, 1]⟩]
      (by decide)).2.1⟩

/-- After lines 186-191 the only still-trainable parameter slot is the
fresh fully-connected head, so the line-195 optimizer owns exactly it. -/
theorem params_to_train_transferSetup (m : MNISTNet) (fresh : List ℚ) :
    params_to_train (transferSetup m fresh) = [Slot.fc1] := rfl

/-- Through one epoch of batches driven by an optimizer that owns only the
`fc1` slot, the convolution tensors ride along unchanged and the `fc1` data
follows the slot-local pass. -/
theorem foldl_trainBatch_fineTune
    (fwd : MNISTNet → List Img → List Scores)
    (crit : List Scores → List Nat → ℚ)
    (upd : Slot → MNISTNet → Batch → List ℚ) (c1 c2 : ParamTensor) :
    ∀ (l : List Batch) (f : List ℚ) (el : ℚ) (co tot : Nat),
      (l.foldl (trainBatch ⟨fwd, crit, optimizerStep [Slot.fc1] upd⟩)
          ⟨⟨c1, c2, ⟨f, true⟩⟩, el, co, tot⟩).model
        = ⟨c1, c2, ⟨finePassFc1 upd c1 c2 f l, true⟩⟩ := by
  intro l
  induction l with
  | nil => intro f el co tot; rfl
  | cons b bs ih =>
    intro f el co tot
    rw [List.foldl_cons]
    exact ih (upd Slot.fc1 ⟨c1, c2, ⟨f, true⟩⟩ b) _ _ _

/-- The whole fine-tuning pass seen from the model state: convolutions
pinned, `fc1` driven by the slot-local epoch iteration. -/
theorem trainLoop_fineTune
    (fwd : MNISTNet → List Img → List Scores)
    (crit : List Scores → List Nat → ℚ)
    (upd : Slot → MNISTNet → Batch → List ℚ) (c1 c2 : ParamTensor)
    (loader : List Batch) :
    ∀ (E : Nat) (f : List ℚ),
      (trainLoop ⟨fwd, crit, optimizerStep [Slot.fc1] upd⟩ loader E
          ⟨c1, c2, ⟨f, true⟩⟩).1
        = ⟨c1, c2, ⟨fineEpochsFc1 upd c1 c2 loader E f, true⟩⟩ := by
  intro E
  induction E with
  | zero => intro f; rfl
  | succ E ih =>
    intro f
    have hre : (runEpoch (⟨fwd, crit, optimizerStep [Slot.fc1] upd⟩ :
          TrainConfig MNISTNet) ⟨c1, c2, ⟨f, true⟩⟩ loader).model
        = ⟨c1, c2, ⟨finePassFc1 upd c1 c2 f loader, true⟩⟩ := by
      rw [runEpoch]
      exact foldl_trainBatch_fineTune fwd crit upd c1 c2 loader f 0 0 0
    simp only [trainLoop]
    rw [hre]
    exact ih (finePassFc1 upd c1 c2 f loader)

/-- C1: after the freeze-and-replace step of the transfer variant, the
fine-tuning pass leaves both convolution tensors bit-identical to their
state immediately after the freeze (the line-195 optimizer owns only the
fresh `fc1` slot and an optimizer writes only the parameters it owns),
while the fresh head's data follows the optimizer's cumulative update and
hence differs from its initial value whenever that cumulative update is not
the identity — as it is not for a real Adam step on a nonzero gradient. -/
theorem transfer_freeze_frame (m0 : MNISTNet) (fresh : List ℚ)
    (fwd : MNISTNet → List Img → List Scores)
    (crit : List Scores → List Nat → ℚ)
    (upd : Slot → MNISTNet → Batch → List ℚ)
    (loader : List Batch) (E : Nat)
    (hchange : fineEpochsFc1 upd (transferSetup m0 fresh).conv1
        (transferSetup m0 fresh).conv2 loader E fresh ≠ fresh) :
    params_to_train (transferSetup m0 fresh) = [Slot.fc1] ∧
    (fineTunePhase m0 fresh fwd crit upd loader E).1.conv1
      = (transferSetup m0 fresh).conv1 ∧
    (fineTunePhase m0 fresh fwd crit upd loader E).1.conv2
      = (transferSetup m0 fresh).conv2 ∧
    (fineTunePhase m0 fresh fwd crit upd loader E).1.fc1.data
      = fineEpochsFc1 upd (transferSetup m0 fresh).conv1
          (transferSetup m0 fresh).conv2 loader E fresh ∧
    (fineTunePhase m0 fresh fwd crit upd loader E).1.fc1.data
      ≠ (transferSetup m0 fresh).fc1.data := by
  have key := trainLoop_fineTune fwd crit upd (transferSetup m0 fresh).conv1
    (transferSetup m0 fresh).conv2 loader E fresh
  have hphase : (fineTunePhase m0 fresh fwd crit upd loader E).1
      = ⟨(transferSetup m0 fresh).conv1, (transferSetup m0 fresh).conv2,
         ⟨fineEpochsFc1 upd (transferSetup m0 fresh).conv1
            (transferSetup m0 fresh).conv2 loader E fresh, true⟩⟩ := key
  refine ⟨rfl, ?_, ?_, ?_, ?_⟩
  · rw [hphase]
  · rw [hphase]
  · rw [hphase]
  · rw [hphase]
    exact hchange

/-- Witness for C1: one batch, one epoch, a first Adam step on gradient 1;
the convolutions stay frozen bit-for-bit while `fc1` moves off its fresh
initialization `[0]`. -/
theorem transfer_freeze_frame_witness :
    (fineTunePhase ⟨⟨[3], true⟩, ⟨[4], true⟩, ⟨[5], true⟩⟩ [0]
        (fun _ _ => []) (fun _ _ => 0)
        (fun _ m _ => m.fc1.data.map (fun w => adamFirstStep (1 / 1000) w 1))
        [⟨[], [0]⟩] 1).1.conv1
      = (transferSetup ⟨⟨[3], true⟩, ⟨[4], true⟩, ⟨[5], true⟩⟩ [0]).conv1 ∧
    (fineTunePhase ⟨⟨[3], true⟩, ⟨[4], true⟩, ⟨[5], true⟩⟩ [0]
        (fun _ _ => []) (fun _ _ => 0)
        (fun _ m _ => m.fc1.data.map (fun w => adamFirstStep (1 / 1000) w 1))
        [⟨[], [0]⟩] 1).1.fc1.data
      ≠ (transferSetup ⟨⟨[3], true⟩, ⟨[4], true⟩, ⟨[5], true⟩⟩ [0]).fc1.data := by
  have h : fineEpochsFc1
      (fun _ m _ => m.fc1.data.map (fun w => adamFirstStep (1 / 1000) w 1))
      (transferSetup ⟨⟨[3], true⟩, ⟨[4], true⟩, ⟨[5], true⟩⟩ [0]).conv1
      (transferSetup ⟨⟨[3], true⟩, ⟨[4], true⟩, ⟨[5], true⟩⟩ [0]).conv2
      [⟨[], [0]⟩] 1 [0] ≠ [0] := by
    simp only [fineEpochsFc1, finePassFc1, adamFirstStep, List.map_cons,
      List.map_nil, transferSetup, replaceFc1, freezeConvs]
    intro hco
    have := List.head_eq_of_cons_eq hco
    norm_num at this
  have hmain := transfer_freeze_frame ⟨⟨[3], true⟩, ⟨[4], true⟩, ⟨[5], true⟩⟩ [0]
    (fun _ _ => []) (fun _ _ => 0)
    (fun _ m _ => m.fc1.data.map (fun w => adamFirstStep (1 / 1000) w 1))
    [⟨[], [0]⟩] 1 h
  exact ⟨hmain.2.1, hmain.2.2.2.2⟩

/-- C9: only `'non_transfer'` and `'transfer'` assign the locals `losses`
and `accuracies`; any other `model_type` reaches line 205 with `losses`
unbound and the run dies on that unbound local — after the line-201
evaluation already ran on the untrained fresh model — while under the
precondition `model_type ∈ {'non_transfer', 'transfer'}` the run completes
normally and that error branch is unreachable. -/
theorem run_once_model_type (env : ExperimentEnv) (model_type : String)
    (h1 : model_type ≠ "non_transfer") (h2 : model_type ≠ "transfer") :
    run_once env model_type
      = RunOutcome.unboundLocal "losses"
          (test_model env.fwd
            (freshModel env.init_conv1 env.init_conv2 env.init_fc1)
            env.test_loader) ∧
    (∃ a ls as, run_once env "non_transfer" = RunOutcome.ok a ls as) ∧
    (∃ a ls as, run_once env "transfer" = RunOutcome.ok a ls as) := by
  refine ⟨?_, ⟨_, _, _, rfl⟩, ⟨_, _, _, rfl⟩⟩
  simp [run_once, h1, h2]

/-- Witness for C9 at the misspelled variant name `'Transfer'`. -/
theorem run_once_model_type_witness :
    run_once sampleEnv "Transfer"
      = RunOutcome.unboundLocal "losses"
          (test_model sampleEnv.fwd
            (freshModel sampleEnv.init_conv1 sampleEnv.init_conv2
              sampleEnv.init_fc1)
            sampleEnv.test_loader) :=
  (run_once_model_type sampleEnv "Transfer" (by decide) (by decide)).1

/-- One run of the transfer variant, as the loop sees it. -/
theorem run_once_transfer_eq (env : ExperimentEnv) :
    run_once env "transfer"
      = RunOutcome.ok (test_model env.fwd (transfer_run env).1 env.test_loader)
          (transfer_run env).2.1 (transfer_run env).2.2 := rfl

/-- The transfer run loop never crashes and collects, run by run, the test
accuracy and the fine-tuning loss list. -/
theorem run_experiment_transfer_eq (envs : Nat → ExperimentEnv) :
    ∀ n, run_experiment envs "transfer" n
      = .ok (((List.range n).map fun r =>
                test_model (envs r).fwd (transfer_run (envs r)).1
                  (envs r).test_loader),
             ((List.range n).map fun r => (transfer_run (envs r)).2.1)) := by
  intro n
  induction n with
  | zero => rfl
  | succ n ih =>
    simp only [run_experiment, ih, run_once_transfer_eq]
    simp [List.range_succ]

/-- C10: in the transfer variant the persisted per-run loss lists are
exactly the fine-tuning phase's output — the pretraining phase contributes
only its final model, its returned metric lists being dropped at line 183 —
and each recorded per-epoch loss is the sum of that epoch's per-batch
losses divided by the number of batches, which differs in general from
dividing by the number of examples. -/
theorem transfer_metrics_provenance (envs : Nat → ExperimentEnv) (n : Nat) :
    run_experiment envs "transfer" n
      = .ok (((List.range n).map fun r =>
                test_model (envs r).fwd (transfer_run (envs r)).1
                  (envs r).test_loader),
             ((List.range n).map fun r => (transfer_run (envs r)).2.1)) ∧
    (∀ env : ExperimentEnv, transfer_run env
      = fineTunePhase (pretrainPhase env).1 env.fresh_fc1 env.fwd env.crit
          env.upd env.small_loader env.num_epochs) ∧
    (∀ (env : ExperimentEnv) (e : Nat), e < env.num_epochs →
      (transfer_run env).2.1[e]?
        = some ((epochBatchLosses (transferFineCfg env)
              (modelAfterEpochs (transferFineCfg env) env.small_loader
                (transferFineStart env) e) env.small_loader).sum
            / (env.small_loader.length : ℚ))) ∧
    ((train_model (M := Unit)
        ⟨fun _ _ => [], fun _ ls => if ls = [0] then 1 else 0, fun m _ => m⟩ ()
        [⟨[9], [0]⟩, ⟨[8, 8, 8], [1, 1, 1]⟩] 1).2.1
      = [(1 : ℚ) / 2] ∧
     ((1 : ℚ) / 2) ≠
       (epochBatchLosses (M := Unit)
          ⟨fun _ _ => [], fun _ ls => if ls = [0] then 1 else 0, fun m _ => m⟩ ()
          [⟨[9], [0]⟩, ⟨[8, 8, 8], [1, 1, 1]⟩]).sum
         / ((streamTotal [⟨[9], [0]⟩, ⟨[8, 8, 8], [1, 1, 1]⟩] : Nat) : ℚ)) := by
  refine ⟨run_experiment_transfer_eq envs n, fun env => rfl, ?_, ?_, ?_⟩
  · intro env e he
    have h1 : (transfer_run env).2.1
        = (trainLoop (transferFineCfg env) env.small_loader env.num_epochs
            (transferFineStart env)).2.1 := rfl
    rw [h1, trainLoop_losses_get (transferFineCfg env) env.small_loader
      env.num_epochs e (transferFineStart env) he, runEpoch_epoch_loss]
  · simp [train_model, trainLoop, runEpoch, trainBatch]
  · simp [epochBatchLosses, streamTotal]

/-- Witness for C10: the inner per-epoch-mean statement applied to the
concrete one-epoch environment. -/
theorem transfer_metrics_provenance_witness :
    (transfer_run sampleEnv).2.1[0]?
      = some ((epochBatchLosses (transferFineCfg sampleEnv)
            (modelAfterEpochs (transferFineCfg sampleEnv)
              sampleEnv.small_loader (transferFineStart sampleEnv) 0)
            sampleEnv.small_loader).sum
          / (sampleEnv.small_loader.length : ℚ)) :=
  (transfer_metrics_provenance (fun _ => sampleEnv) 1).2.2.1 sampleEnv 0
    (by decide)

/-- C7: the unconditional top level runs the two variants in fixed order —
all 10 non-transfer runs first, then all 10 transfer runs, every training
phase configured for 10 epochs (the transfer runs each holding two such
phases) — and only after every run of both variants does it write exactly
the four numeric arrays and render the two summary images, in that order. -/
theorem toplevel_schedule :
    mainEvents
      = mainEvents.filter isRunEvent ++
        [Event.saveArray "logs/non_transfer_accuracies.npy",
         Event.saveArray "logs/non_transfer_losses.npy",
         Event.saveArray "logs/transfer_accuracies.npy",
         Event.saveArray "logs/transfer_losses.npy"] ++
        [Event.summaryImage "Non-Transfer Experiment",
         Event.summaryImage "Transfer Experiment"] ∧
    mainEvents.filter isRunEvent
      = runExperimentEvents "non_transfer" 10 10 ++
        runExperimentEvents "transfer" 10 10 ∧
    mainEvents.filter (isPhaseOf "non_transfer")
      = ((List.range 10).map fun r => Event.trainPhase "non_transfer" (r + 1) 10) ∧
    mainEvents.filter (isPhaseOf "transfer")
      = ((List.range 10).flatMap fun r =>
          [Event.trainPhase "transfer" (r + 1) 10,
           Event.trainPhase "transfer" (r + 1) 10]) :=
  ⟨rfl, rfl, rfl, rfl⟩

/-- Emitting a record appends it to an attached handler's file and leaves
other files alone. -/
theorem logInfo_files (st : LogState) (name : String) (msg : LogMsg)
    (f : String) :
    (logInfo st name msg).files f
      = st.files f ++ (if f ∈ st.handlers name then [msg] else []) := by
  by_cases h : f ∈ st.handlers name <;> simp [logInfo, h]

/-- Logging never changes the handler registry. -/
theorem logMsgs_handlers (name : String) :
    ∀ (ms : List LogMsg) (st : LogState), (logMsgs st name ms).handlers
      = st.handlers := by
  intro ms
  induction ms with
  | nil => intro st; rfl
  | cons m ms ih => intro st; exact ih (logInfo st name m)

/-- Logging only ever appends to a file. -/
theorem logMsgs_files_mono (name : String) :
    ∀ (ms : List LogMsg) (st : LogState) (f : String),
      ∃ t, (logMsgs st name ms).files f = st.files f ++ t := by
  intro ms
  induction ms with
  | nil => intro st f; exact ⟨[], by simp [logMsgs]⟩
  | cons m ms ih =>
    intro st f
    obtain ⟨t, ht⟩ := ih (logInfo st name m) f
    refine ⟨(if f ∈ st.handlers name then [m] else []) ++ t, ?_⟩
    show (logMsgs (logInfo st name m) name ms).files f = _
    rw [ht, logInfo_files, List.append_assoc]

/-- Every logged message lands in every file attached to the logger. -/
theorem logMsgs_files_mem (name : String) :
    ∀ (ms : List LogMsg) (st : LogState) (f : String) (m' : LogMsg),
      f ∈ st.handlers name → m' ∈ ms → m' ∈ (logMsgs st name ms).files f := by
  intro ms
  induction ms with
  | nil => intro st f m' _ hm; exact absurd hm (by simp)
  | cons m ms ih =>
    intro st f m' hf hm
    rcases List.mem_cons.1 hm with h | h
    · obtain ⟨t, ht⟩ := logMsgs_files_mono name ms (logInfo st name m) f
      show m' ∈ (logMsgs (logInfo st name m) name ms).files f
      rw [ht, logInfo_files, if_pos hf, h]
      simp
    · exact ih (logInfo st name m) f m' hf h

/-- One `setup_logger` call appends exactly one handler to its own logger. -/
theorem setup_logger_handlers_self (st : LogState) (ty : String) (k : Nat) :
    (setup_logger st ty k).handlers ty = st.handlers ty ++ [log_file ty k] := by
  simp [setup_logger]

/-- After `k` runs the logger named `ty` carries one file handler per run
so far, in run order, on top of whatever it started with. -/
theorem runExperimentLog_handlers (ty : String) (msgs : Nat → List LogMsg) :
    ∀ (k : Nat) (st : LogState),
      (runExperimentLog ty msgs k st).handlers ty
        = st.handlers ty ++ (List.range k).map (fun i => log_file ty (i + 1)) := by
  intro k
  induction k with
  | zero => intro st; simp [runExperimentLog]
  | succ k ih =>
    intro st
    show (logMsgs (setup_logger (runExperimentLog ty msgs k st) ty (k + 1)) ty
        (msgs k)).handlers ty = _
    rw [logMsgs_handlers, setup_logger_handlers_self, ih, List.range_succ]
    simp

/-- The run loop only ever appends to any log file. -/
theorem runExperimentLog_files_mono (ty : String) (msgs : Nat → List LogMsg) :
    ∀ (k : Nat) (st : LogState) (f : String),
      ∃ t, (runExperimentLog ty msgs k st).files f = st.files f ++ t := by
  intro k
  induction k with
  | zero => intro st f; exact ⟨[], by simp [runExperimentLog]⟩
  | succ k ih =>
    intro st f
    obtain ⟨t0, ht0⟩ := ih st f
    obtain ⟨t1, ht1⟩ := logMsgs_files_mono ty (msgs k)
      (setup_logger (runExperimentLog ty msgs k st) ty (k + 1)) f
    refine ⟨t0 ++ t1, ?_⟩
    show (logMsgs (setup_logger (runExperimentLog ty msgs k st) ty (k + 1)) ty
        (msgs k)).files f = _
    rw [ht1]
    show (runExperimentLog ty msgs k st).files f ++ t1 = _
    rw [ht0, List.append_assoc]

/-- C8: `setup_logger` fetches the same named logger every run and only
adds handlers, so after `R` runs the logger holds one handler per run; and
every message logged during run `r+1` is appended to the log files of all
runs `1..r+1` — in particular run 1's log file accumulates every run's
messages.  (`msgs r` are the lines run `r+1` logs.) -/
theorem setup_logger_accumulates (ty : String) (msgs : Nat → List LogMsg)
    (R r j : Nat) (hr : r < R) (hj1 : 1 ≤ j) (hjr : j ≤ r + 1)
    (m : LogMsg) (hm : m ∈ msgs r) :
    (runExperimentLog ty msgs R initLogState).handlers ty
      = (List.range R).map (fun i => log_file ty (i + 1)) ∧
    m ∈ (runExperimentLog ty msgs R initLogState).files (log_file ty j) := by
  refine ⟨by rw [runExperimentLog_handlers]; rfl, ?_⟩
  induction R with
  | zero => exact absurd hr (Nat.not_lt_zero r)
  | succ S ih =>
    rcases Nat.lt_succ_iff_lt_or_eq.1 hr with h | h
    · have hmem := ih h
      obtain ⟨t, ht⟩ := logMsgs_files_mono ty (msgs S)
        (setup_logger (runExperimentLog ty msgs S initLogState) ty (S + 1))
        (log_file ty j)
      show m ∈ (logMsgs (setup_logger (runExperimentLog ty msgs S initLogState)
          ty (S + 1)) ty (msgs S)).files (log_file ty j)
      rw [ht]
      exact List.mem_append_left _ hmem
    · subst h
      show m ∈ (logMsgs (setup_logger (runExperimentLog ty msgs r initLogState)
          ty (r + 1)) ty (msgs r)).files (log_file ty j)
      apply logMsgs_files_mem ty (msgs r) _ _ m _ hm
      rw [setup_logger_handlers_self, runExperimentLog_handlers]
      have hj : j - 1 + 1 = j := Nat.succ_pred_eq_of_pos hj1
      rcases Nat.lt_or_ge (j - 1) r with hlt | hge
      · refine List.mem_append_left _ ?_
        refine List.mem_append_right _ ?_
        exact List.mem_map.2 ⟨j - 1, List.mem_range.2 hlt, by rw [hj]⟩
      · have : j = r + 1 := by omega
        subst this
        exact List.mem_append_right _ (by simp)

/-- Witness for C8: with two runs each logging one line, run 2's line is
present in run 1's log file. -/
theorem setup_logger_accumulates_witness :
    "line" ∈ (runExperimentLog "non_transfer" (fun _ => ["line"]) 2
      initLogState).files (log_file "non_transfer" 1) :=
  (setup_logger_accumulates "non_transfer" (fun _ => ["line"]) 2 1 1
    (by decide) (by decide) (by decide) "line" (by simp)).2

end Compare2
